import Mathlib

/-!
Verification of `vintage_story_mods.py` (VSModPuller): a shallow embedding of
the ETL script's data model and operations, with theorems settling the frozen
claims about its specification.

Conventions of the embedding:
* JSON documents are modelled by the inductive `Json`; `json_loads` is an
  executable recursive-descent parser and `jsonDump` the serializer
  (numbers are restricted to integers and string literals carry no escape
  sequences — no claim depends on either).
* The filesystem is an association list from path strings to file contents;
  the network is a function from a URL to either an exception or a response
  body.
* The SQLite store is a record of row lists, one per table, with explicit
  autoincrement counters for surrogate keys.
* Machine integers do not overflow in the source's ranges, so counters and
  ids are `Nat`/`Int`.
-/

/-- A JSON value, as produced by `json.loads` / `requests.Response.json`. -/
inductive Json where
  | null
  | bool (b : Bool)
  | num (n : Int)
  | str (s : String)
  | arr (elems : List Json)
  | obj (fields : List (String × Json))

/-- Skip JSON whitespace. -/
def skipWs : List Char → List Char
  | c :: cs => if c = ' ' ∨ c = '\n' ∨ c = '\t' ∨ c = '\r' then skipWs cs else c :: cs
  | [] => []

/-- Parse the body of a JSON string literal after the opening quote
(the model supports no escape sequences). -/
def parseStringBody : List Char → Option (List Char × List Char)
  | [] => none
  | c :: cs =>
    if c = '"' then some ([], cs)
    else if c = '\\' then none
    else match parseStringBody cs with
      | some (s, rest) => some (c :: s, rest)
      | none => none

/-- Collect leading decimal digits. -/
def takeDigits : List Char → (List Char × List Char)
  | [] => ([], [])
  | c :: cs =>
    if c.isDigit then
      let (ds, rest) := takeDigits cs
      (c :: ds, rest)
    else ([], c :: cs)

/-- Digits to the natural number they denote. -/
def digitsToNat (cs : List Char) : Nat :=
  cs.foldl (fun n c => n * 10 + (c.toNat - 48)) 0

/-- Parse a JSON integer (an optional minus sign and digits). -/
def parseNum (cs : List Char) : Option (Json × List Char) :=
  match cs with
  | '-' :: rest =>
    match takeDigits rest with
    | ([], _) => none
    | (ds, rest) => some (.num (-(digitsToNat ds : Int)), rest)
  | _ =>
    match takeDigits cs with
    | ([], _) => none
    | (ds, rest) => some (.num (digitsToNat ds), rest)

mutual

/-- Parse one JSON value; `fuel` bounds the recursion depth. -/
def parseVal : Nat → List Char → Option (Json × List Char)
  | 0, _ => none
  | fuel + 1, cs =>
    match skipWs cs with
    | [] => none
    | 'n' :: 'u' :: 'l' :: 'l' :: r => some (.null, r)
    | 't' :: 'r' :: 'u' :: 'e' :: r => some (.bool true, r)
    | 'f' :: 'a' :: 'l' :: 's' :: 'e' :: r => some (.bool false, r)
    | '"' :: r =>
      match parseStringBody r with
      | some (s, rest) => some (.str (String.mk s), rest)
      | none => none
    | '[' :: r =>
      match skipWs r with
      | ']' :: rest => some (.arr [], rest)
      | r2 =>
        match parseArrItems fuel r2 with
        | some (vs, rest) => some (.arr vs, rest)
        | none => none
    | '\x7b' :: r =>
      match skipWs r with
      | '\x7d' :: rest => some (.obj [], rest)
      | r2 =>
        match parseObjItems fuel r2 with
        | some (kvs, rest) => some (.obj kvs, rest)
        | none => none
    | c :: r =>
      if c = '-' ∨ c.isDigit then parseNum (c :: r) else none

/-- Parse the items of a nonempty JSON array up to the closing bracket. -/
def parseArrItems : Nat → List Char → Option (List Json × List Char)
  | 0, _ => none
  | fuel + 1, cs =>
    match parseVal fuel cs with
    | none => none
    | some (v, rest) =>
      match skipWs rest with
      | ',' :: r =>
        match parseArrItems fuel r with
        | some (vs, rest2) => some (v :: vs, rest2)
        | none => none
      | ']' :: r => some ([v], r)
      | _ => none

/-- Parse the members of a nonempty JSON object up to the closing brace. -/
def parseObjItems : Nat → List Char → Option (List (String × Json) × List Char)
  | 0, _ => none
  | fuel + 1, cs =>
    match skipWs cs with
    | '"' :: r =>
      match parseStringBody r with
      | none => none
      | some (k, rest) =>
        match skipWs rest with
        | ':' :: r2 =>
          match parseVal fuel r2 with
          | none => none
          | some (v, rest2) =>
            match skipWs rest2 with
            | ',' :: r3 =>
              match parseObjItems fuel r3 with
              | some (kvs, rest3) => some ((String.mk k, v) :: kvs, rest3)
              | none => none
            | '\x7d' :: r3 => some ([(String.mk k, v)], r3)
            | _ => none
        | _ => none
    | _ => none

end

/-- Embedding of `json.loads`: parse a whole document, requiring only
whitespace after the value. -/
def json_loads (s : String) : Except String Json :=
  match parseVal (2 * s.length + 8) s.data with
  | none => .error ("JSONDecodeError")
  | some (v, rest) =>
    match skipWs rest with
    | [] => .ok v
    | _ => .error ("Extra data")

mutual

/-- Embedding of `json.dump` (default separators, no escaping). -/
def jsonDump : Json → String
  | .null => "null"
  | .bool true => "true"
  | .bool false => "false"
  | .num n => toString n
  | .str s => "\"" ++ s ++ "\""
  | .arr xs => "[" ++ jsonDumpArrItems xs ++ "]"
  | .obj kvs => "\x7b" ++ jsonDumpObjItems kvs ++ "\x7d"

/-- Serialize array items, comma separated. -/
def jsonDumpArrItems : List Json → String
  | [] => ""
  | [x] => jsonDump x
  | x :: xs => jsonDump x ++ ", " ++ jsonDumpArrItems xs

/-- Serialize object members, comma separated. -/
def jsonDumpObjItems : List (String × Json) → String
  | [] => ""
  | [(k, v)] => "\"" ++ k ++ "\": " ++ jsonDump v
  | (k, v) :: kvs => "\"" ++ k ++ "\": " ++ jsonDump v ++ ", " ++ jsonDumpObjItems kvs

end

/-- Look up a key in a JSON object's field list (first binding wins, as a
parsed Python dict would after duplicate-key overwrite; inputs here have no
duplicate keys). -/
def jsonLookup (kvs : List (String × Json)) (k : String) : Option Json :=
  (kvs.find? (fun p => p.1 == k)).map (fun p => p.2)

/-- Embedding of `response_json[key]`: a `KeyError`/`TypeError` becomes
`none`. -/
def jsonGetKey (j : Json) (k : String) : Option Json :=
  match j with
  | .obj kvs => jsonLookup kvs k
  | _ => none

/-- The local filesystem: a map from path to file contents. -/
abbrev FS := List (String × String)

/-- Embedding of `filepath.exists()` / reading the file at a path. -/
def fsRead (fs : FS) (p : String) : Option String :=
  (fs.find? (fun e => e.1 == p)).map (fun e => e.2)

/-- Write (create or overwrite) the file at a path. -/
def fsWrite (fs : FS) (p : String) (c : String) : FS :=
  if fs.any (fun e => e.1 == p) then
    fs.map (fun e => if e.1 == p then (p, c) else e)
  else fs ++ [(p, c)]

/-- The network: a URL is mapped to an exception or to a response body.
`requests.get` performs no status validation, so the body is returned as-is. -/
abbrev Network := String → Except String String

/-- Outcome of one `download_load_data` call: the returned value (or the
propagated exception), the filesystem afterwards, and whether the network
was contacted. -/
structure FetchResult where
  value : Except String Json
  fs : FS
  networkCalled : Bool

/-- Embedding of `download_load_data(url, filepath, key)`:
if the cache file is absent, GET the URL, decode the body as JSON, extract
the array at `key` and write it to the cache file; then (in every case)
read the cache file back and parse it as the return value. Any exception
propagates, leaving the filesystem as it was at that point. -/
def download_load_data (net : Network) (fs : FS) (url : String) (filepath : String)
    (key : String) : FetchResult :=
  match fsRead fs filepath with
  | some contents =>
    { value := json_loads contents, fs := fs, networkCalled := false }
  | none =>
    match net url with
    | .error e => { value := .error e, fs := fs, networkCalled := true }
    | .ok body =>
      match json_loads body with
      | .error e => { value := .error e, fs := fs, networkCalled := true }
      | .ok respJson =>
        match jsonGetKey respJson key with
        | none => { value := .error ("KeyError"), fs := fs, networkCalled := true }
        | some mods =>
          let fs2 := fsWrite fs filepath (jsonDump mods)
          match fsRead fs2 filepath with
          | some contents => { value := json_loads contents, fs := fs2, networkCalled := true }
          | none => { value := .error ("FileNotFoundError"), fs := fs2, networkCalled := true }

/-- A naive calendar timestamp (seconds granularity), the shape of a
`datetime.datetime` as used by this program. -/
structure DateTime where
  year : Nat
  month : Nat
  day : Nat
  hour : Nat
  minute : Nat
  second : Nat
deriving DecidableEq, Repr

/-- Leap-year test of the proleptic Gregorian calendar. -/
def isLeap (y : Nat) : Bool :=
  (y % 4 == 0 && y % 100 != 0) || y % 400 == 0

/-- Number of days in a month. -/
def daysInMonth (y m : Nat) : Nat :=
  if m = 2 then (if isLeap y then 29 else 28)
  else if m = 4 ∨ m = 6 ∨ m = 9 ∨ m = 11 then 30
  else 31

/-- Days since the Unix epoch of a Gregorian civil date
(Hinnant's days-from-civil algorithm). -/
def daysFromCivil (y m d : Nat) : Int :=
  let yy : Int := (y : Int) - (if m ≤ 2 then 1 else 0)
  let era : Int := yy.fdiv 400
  let yoe : Int := yy - era * 400
  let mp : Int := if m > 2 then (m : Int) - 3 else (m : Int) + 9
  let doy : Int := (153 * mp + 2) / 5 + (d : Int) - 1
  let doe : Int := yoe * 365 + yoe / 4 - yoe / 100 + doy
  era * 146097 + doe - 719468

/-- Gregorian civil date of a day count since the Unix epoch
(Hinnant's civil-from-days algorithm). -/
def civilFromDays (z0 : Int) : Nat × Nat × Nat :=
  let z : Int := z0 + 719468
  let era : Int := z.fdiv 146097
  let doe : Int := z - era * 146097
  let yoe : Int := (doe - doe / 1460 + doe / 36524 - doe / 146096) / 365
  let y : Int := yoe + era * 400
  let doy : Int := doe - (365 * yoe + yoe / 4 - yoe / 100)
  let mp : Int := (5 * doy + 2) / 153
  let d : Int := doy - (153 * mp + 2) / 5 + 1
  let m : Int := if mp < 10 then mp + 3 else mp - 9
  (((if m ≤ 2 then y + 1 else y)).toNat, m.toNat, d.toNat)

/-- Seconds since the Unix epoch of a calendar timestamp read in UTC. -/
def epochUTC (dt : DateTime) : Int :=
  daysFromCivil dt.year dt.month dt.day * 86400
    + (dt.hour * 3600 + dt.minute * 60 + dt.second : Nat)

/-- Embedding of `datetime.timestamp()` on a naive timestamp: the naive
value is interpreted in the local timezone, modelled as a fixed offset `tz`
in seconds east of UTC. -/
def timestamp (tz : Int) (dt : DateTime) : Int :=
  epochUTC dt - tz

/-- Embedding of `datetime.fromtimestamp()`: epoch seconds back to a naive
local-time calendar timestamp under the same fixed offset. -/
def fromtimestamp (tz : Int) (v : Int) : DateTime :=
  let t : Int := v + tz
  let days : Int := t.fdiv 86400
  let sod : Nat := (t - days * 86400).toNat
  let ymd := civilFromDays days
  { year := ymd.1, month := ymd.2.1, day := ymd.2.2,
    hour := sod / 3600, minute := sod % 3600 / 60, second := sod % 60 }

/-- Read digits greedily, at most `w` of them. -/
def takeDigitsUpTo : Nat → List Char → (List Char × List Char)
  | 0, cs => ([], cs)
  | _ + 1, [] => ([], [])
  | w + 1, c :: cs =>
    if c.isDigit then
      let (ds, rest) := takeDigitsUpTo w cs
      (c :: ds, rest)
    else ([], c :: cs)

/-- Parse one numeric field of at most `w` digits. -/
def parseField (w : Nat) (cs : List Char) : Option (Nat × List Char) :=
  match takeDigitsUpTo w cs with
  | ([], _) => none
  | (ds, rest) => some (digitsToNat ds, rest)

/-- Expect one literal character. -/
def expectChar (c : Char) : List Char → Option (List Char)
  | [] => none
  | x :: xs => if x = c then some xs else none

/-- Embedding of `datetime.strptime(datestr, Y-m-d H:M:S)` (each numeric
field is 1 to 4 or 1 to 2 digits, ranges validated against the calendar).
Returns the parse error rather than a timestamp when the string does not
match the format. -/
def strptime (s : String) : Option DateTime :=
  match parseField 4 s.data with
  | none => none
  | some (y, r1) =>
  match expectChar '-' r1 with
  | none => none
  | some r2 =>
  match parseField 2 r2 with
  | none => none
  | some (mo, r3) =>
  match expectChar '-' r3 with
  | none => none
  | some r4 =>
  match parseField 2 r4 with
  | none => none
  | some (d, r5) =>
  match expectChar ' ' r5 with
  | none => none
  | some r6 =>
  match parseField 2 r6 with
  | none => none
  | some (h, r7) =>
  match expectChar ':' r7 with
  | none => none
  | some r8 =>
  match parseField 2 r8 with
  | none => none
  | some (mi, r9) =>
  match expectChar ':' r9 with
  | none => none
  | some r10 =>
  match parseField 2 r10 with
  | none => none
  | some (sec, r11) =>
    if r11.isEmpty ∧ 1 ≤ y ∧ 1 ≤ mo ∧ mo ≤ 12 ∧ 1 ≤ d ∧ d ≤ daysInMonth y mo
        ∧ h ≤ 23 ∧ mi ≤ 59 ∧ sec ≤ 59 then
      some { year := y, month := mo, day := d, hour := h, minute := mi, second := sec }
    else none

/-- Embedding of `str_to_datetime`: `strptime` with the `ValueError` logged
and re-raised (the error propagates unchanged). -/
def str_to_datetime (datestr : String) : Except String DateTime :=
  match strptime datestr with
  | some dt => .ok dt
  | none => .error ("time data does not match format")

/-- A value arriving at the timestamp column: the raw JSON gives a string,
an already-parsed value is a calendar timestamp. -/
inductive TsIn where
  | str (s : String)
  | dt (d : DateTime)
deriving DecidableEq, Repr

/-- Embedding of `UnixTimestamp.process_bind_param`: `None` passes through;
a string is parsed and converted via `timestamp()` (the source leaves this
branch a float, but at seconds granularity it is a whole number and the
`Integer` column stores it as an integer); a calendar value is converted via
`int(datetime.timestamp(value))`. A parse failure propagates. -/
def process_bind_param (tz : Int) : Option TsIn → Except String (Option Int)
  | none => .ok none
  | some (.str s) =>
    match str_to_datetime s with
    | .error e => .error e
    | .ok d => .ok (some (timestamp tz d))
  | some (.dt d) => .ok (some (timestamp tz d))

/-- Embedding of `UnixTimestamp.process_result_value`: `None` passes
through; an integer read from the column is rehydrated via
`datetime.fromtimestamp`. (The source's string branch is unreachable for
values read from the `Integer` column and is omitted.) -/
def process_result_value (tz : Int) : Option Int → Option DateTime
  | none => none
  | some v => some (fromtimestamp tz v)

/-- Embedding of the `InstallSide` enum. -/
inductive InstallSide where
  | server
  | client
  | both
deriving DecidableEq, Repr

/-- Embedding of the `ModType` enum. -/
inductive ModType where
  | mod
  | externaltool
  | other
deriving DecidableEq, Repr

/-- A raw author record from the authors collection: the fields `main`
reads (`userid`, `name`; `name` is nullable). -/
structure RawAuthor where
  userid : Nat
  name : Option String
deriving DecidableEq, Repr

/-- A raw mod record from the mods collection: exactly the fields the load
loop pops and the fields forwarded to the `Mod` constructor. `comments` and
`type_` carry the raw key names `comments` / `type` that the loop renames. -/
structure RawMod where
  modid : Nat
  author : String
  modidstrs : List String
  tags : List String
  assetid : Nat
  name : String
  summary : Option String
  urlalias : Option String
  downloads : Nat
  follows : Nat
  trendingpoints : Nat
  comments : Nat
  logo : Option String
  side : InstallSide
  type_ : ModType
  lastreleased : Option TsIn
deriving DecidableEq, Repr

/-- A row of the `author` table. -/
structure Author where
  id : Nat
  name : Option String
deriving DecidableEq, Repr

/-- A row of the `mod` table (`lastreleased` is the epoch integer the
`UnixTimestamp` codec bound into the column). -/
structure ModRow where
  id : Nat
  assetid : Nat
  name : String
  summary : Option String
  author_id : Nat
  urlalias : Option String
  downloads : Nat
  follows : Nat
  trendingpoints : Nat
  comment_count : Nat
  logo : Option String
  side : InstallSide
  mod_type : ModType
  lastreleased : Option Int
deriving DecidableEq, Repr

/-- A row of the `modid_str` table (`modid_str` is the primary key). -/
structure ModIdStr where
  modid_str : String
  mod_id : Nat
deriving DecidableEq, Repr

/-- A row of the `mod_tag` join table: a surrogate integer primary key and
the two foreign keys, with no uniqueness constraint on the pair. -/
structure ModTag where
  id : Nat
  mod_id : Nat
  tag_id : Nat
deriving DecidableEq, Repr

/-- A row of the `mod_version` table (never populated by `main`; the load
call site is commented out in the source). -/
structure ModVersion where
  id : Nat
  mod_id : Nat
  version : String
deriving DecidableEq, Repr

/-- A row of the `tag` table (surrogate id, unique tag string). -/
structure Tag where
  id : Nat
  tag : String
deriving DecidableEq, Repr

/-- The SQLite store: one list of rows per table, plus the autoincrement
counters for the surrogate primary keys the program lets the database
assign (`tag.id`, `mod_tag.id`). Uniqueness constraints are enforced the
way SQLite enforces them — per INSERT, in the operations below: the
`UNIQUE` constraint on `mod.assetid` (source line 129) is checked by
`upsertMod`, and the other unique keys (author id, mod id, modid_str,
tag) cannot be violated because every insert is guarded by a lookup on
exactly that key. -/
structure DB where
  authors : List Author
  mods : List ModRow
  modidStrs : List ModIdStr
  tags : List Tag
  modTags : List ModTag
  modVersions : List ModVersion
  nextTagId : Nat
  nextModTagId : Nat
deriving DecidableEq, Repr

/-- A freshly created store (`Base.metadata.create_all` on a new file). -/
def emptyDB : DB :=
  { authors := [], mods := [], modidStrs := [], tags := [], modTags := [],
    modVersions := [], nextTagId := 0, nextModTagId := 0 }

/-- The in-memory author index: Python dict semantics, so lookups only. -/
abbrev AuthorIndex := String → Option RawAuthor

/-- Embedding of the dict comprehension on line 173 of the source:
authors are inserted in order, records with a null `name` are skipped, and
a later record with the same name overwrites an earlier one. -/
def authors_by_name (authors : List RawAuthor) : AuthorIndex :=
  authors.foldl
    (fun d a =>
      match a.name with
      | none => d
      | some n => fun k => if k == n then some a else d k)
    (fun _ => none)

/-- Errors the load loop can raise for one record. -/
inductive LoadErr where
  | keyError (k : String)
  | valueError (e : String)
  | integrityError (e : String)
deriving DecidableEq, Repr

/-- Result of a piece of the load stage. Because the loop commits after
every insert, an error carries the store state already persisted when it
was raised. -/
inductive LoadResult where
  | ok (db : DB)
  | err (e : LoadErr) (db : DB)
deriving DecidableEq, Repr

/-- Author upsert (source lines 199 to 204): query by `Author.id ==
author_dict.userid`; insert `(userid, name)` only when absent. -/
def upsertAuthor (db : DB) (ad : RawAuthor) : DB :=
  if db.authors.any (fun a => a.id == ad.userid) then db
  else { db with authors := db.authors ++ [{ id := ad.userid, name := ad.name }] }

/-- The normalized `mod` row built on lines 209 to 212: `comments` renamed
to `comment_count`, `type` renamed to `mod_type`, the resolved author's id
as the relation, and the timestamp bound by the `UnixTimestamp` codec. -/
def normalizedModRow (m : RawMod) (authorId : Nat) (ts : Option Int) : ModRow :=
  { id := m.modid, assetid := m.assetid, name := m.name, summary := m.summary,
    author_id := authorId, urlalias := m.urlalias, downloads := m.downloads,
    follows := m.follows, trendingpoints := m.trendingpoints,
    comment_count := m.comments, logo := m.logo, side := m.side,
    mod_type := m.type_, lastreleased := ts }

/-- Mod upsert (source lines 206 to 214): query by `Mod.id == modid` (the
raw record's `modid` value, used as the primary key); insert the normalized
row only when absent. The commit at line 214 can raise: binding the
timestamp raises `ValueError` while the flush builds the INSERT statement,
and executing the INSERT raises `IntegrityError` when another row already
carries the record's assetid (the `UNIQUE` constraint on `mod.assetid`,
source line 129); on either error nothing is inserted. -/
def upsertMod (tz : Int) (db : DB) (m : RawMod) (authorId : Nat) :
    Except LoadErr DB :=
  if db.mods.any (fun r => r.id == m.modid) then .ok db
  else
    match process_bind_param tz m.lastreleased with
    | .error e => .error (.valueError e)
    | .ok ts =>
      if db.mods.any (fun r => r.assetid == m.assetid) then
        .error (.integrityError ("UNIQUE constraint failed: mod.assetid"))
      else .ok { db with mods := db.mods ++ [normalizedModRow m authorId ts] }

/-- ModIdStr upsert (source lines 216 to 221): query by the alias string;
insert linked to the current mod only when absent. -/
def upsertModIdStr (db : DB) (modId : Nat) (s : String) : DB :=
  if db.modidStrs.any (fun r => r.modid_str == s) then db
  else { db with modidStrs := db.modidStrs ++ [{ modid_str := s, mod_id := modId }] }

/-- The id the tag-attachment step uses for a tag string: the id of the
existing `tag` row, or the autoincrement id a fresh insert receives. -/
def tagIdFor (db : DB) (t : String) : Nat :=
  match db.tags.find? (fun r => r.tag == t) with
  | some tg => tg.id
  | none => db.nextTagId

/-- Tag upsert plus attachment (source lines 223 to 229): insert the tag
row only when the string is absent; in either case `mod.tags.append(tag)`
adds one `mod_tag` join row for the current mod. -/
def upsertTagAttach (db : DB) (modId : Nat) (t : String) : DB :=
  let tid := tagIdFor db t
  let db2 :=
    if db.tags.any (fun r => r.tag == t) then db
    else { db with tags := db.tags ++ [{ id := db.nextTagId, tag := t }],
                   nextTagId := db.nextTagId + 1 }
  { db2 with modTags := db2.modTags ++ [{ id := db2.nextModTagId, mod_id := modId, tag_id := tid }],
             nextModTagId := db2.nextModTagId + 1 }

/-- One iteration of the load loop (source lines 194 to 230) on one raw
mod record: pop the list-valued fields, resolve the author name through the
index (`KeyError` when absent, before anything is written), upsert the
author, the mod (timestamp binding may raise `ValueError` after the author
was committed), the alias strings, and the tags with their attachments. -/
def processRecord (tz : Int) (idx : AuthorIndex) (db : DB) (m : RawMod) :
    LoadResult :=
  match idx m.author with
  | none => .err (.keyError m.author) db
  | some ad =>
    match upsertMod tz (upsertAuthor db ad) m ad.userid with
    | .error e => .err e (upsertAuthor db ad)
    | .ok db2 =>
      .ok (m.tags.foldl (fun d t => upsertTagAttach d m.modid t)
        (m.modidstrs.foldl (fun d s => upsertModIdStr d m.modid s) db2))

/-- The whole load loop over the fetched mods array; the first error aborts
the run, keeping everything committed so far. -/
def runLoad (tz : Int) (idx : AuthorIndex) (db : DB) : List RawMod → LoadResult
  | [] => .ok db
  | m :: rest =>
    match processRecord tz idx db m with
    | .err e d => .err e d
    | .ok d => runLoad tz idx d rest

/-- Read a JSON number as a `Nat` (the repository's ids and counters are
nonnegative). -/
def jsonAsNat : Option Json → Option Nat
  | some (.num n) => if n < 0 then none else some n.toNat
  | _ => none

/-- Read a JSON string. -/
def jsonAsStr : Option Json → Option String
  | some (.str s) => some s
  | _ => none

/-- Read a nullable JSON string. -/
def jsonAsOptStr : Option Json → Option (Option String)
  | some (.str s) => some (some s)
  | some .null => some none
  | _ => none

/-- Read a JSON array of strings. -/
def jsonAsStrList : Option Json → Option (List String)
  | some (.arr xs) => xs.mapM (fun j => jsonAsStr (some j))
  | _ => none

/-- Read an `InstallSide` from its enum name. -/
def jsonAsSide : Option Json → Option InstallSide
  | some (.str s) =>
    if s == "server" then some .server
    else if s == "client" then some .client
    else if s == "both" then some .both
    else none
  | _ => none

/-- Read a `ModType` from its enum name. -/
def jsonAsModType : Option Json → Option ModType
  | some (.str s) =>
    if s == "mod" then some .mod
    else if s == "externaltool" then some .externaltool
    else if s == "other" then some .other
    else none
  | _ => none

/-- Read a nullable timestamp value (the raw JSON carries a string). -/
def jsonAsTs : Option Json → Option (Option TsIn)
  | some (.str s) => some (some (.str s))
  | some .null => some none
  | _ => none

/-- View one decoded JSON record as the raw author dict `main` reads. -/
def decodeAuthor (j : Json) : Option RawAuthor :=
  match j with
  | .obj kvs =>
    match jsonAsNat (jsonLookup kvs ("userid")), jsonAsOptStr (jsonLookup kvs ("name")) with
    | some u, some n => some { userid := u, name := n }
    | _, _ => none
  | _ => none

/-- View the decoded authors collection as a list of raw author dicts. -/
def decodeAuthors (j : Json) : Option (List RawAuthor) :=
  match j with
  | .arr items => items.mapM decodeAuthor
  | _ => none

/-- View one decoded JSON record as the raw mod dict the load loop reads
(`modidstrs` and `tags` default to `[]` when the keys are absent, matching
the `pop` default arguments). -/
def decodeMod (j : Json) : Option RawMod :=
  match j with
  | .obj kvs =>
    match jsonAsNat (jsonLookup kvs ("modid")), jsonAsStr (jsonLookup kvs ("author")),
          jsonAsNat (jsonLookup kvs ("assetid")), jsonAsStr (jsonLookup kvs ("name")) with
    | some modid, some author, some assetid, some name =>
      match jsonAsOptStr (jsonLookup kvs ("summary")), jsonAsOptStr (jsonLookup kvs ("urlalias")),
            jsonAsNat (jsonLookup kvs ("downloads")), jsonAsNat (jsonLookup kvs ("follows")) with
      | some summary, some urlalias, some downloads, some follows =>
        match jsonAsNat (jsonLookup kvs ("trendingpoints")), jsonAsNat (jsonLookup kvs ("comments")),
              jsonAsOptStr (jsonLookup kvs ("logo")), jsonAsSide (jsonLookup kvs ("side")) with
        | some trendingpoints, some comments, some logo, some side =>
          match jsonAsModType (jsonLookup kvs ("type")), jsonAsTs (jsonLookup kvs ("lastreleased")) with
          | some ty, some lastreleased =>
            let modidstrs := (jsonAsStrList (jsonLookup kvs ("modidstrs"))).getD []
            let tags := (jsonAsStrList (jsonLookup kvs ("tags"))).getD []
            some { modid := modid, author := author, modidstrs := modidstrs,
                   tags := tags, assetid := assetid, name := name,
                   summary := summary, urlalias := urlalias,
                   downloads := downloads, follows := follows,
                   trendingpoints := trendingpoints, comments := comments,
                   logo := logo, side := side, type_ := ty,
                   lastreleased := lastreleased }
          | _, _ => none
        | _, _, _, _ => none
      | _, _, _, _ => none
    | _, _, _, _ => none
  | _ => none

/-- View the decoded mods collection as a list of raw mod dicts. -/
def decodeMods (j : Json) : Option (List RawMod) :=
  match j with
  | .arr items => items.mapM decodeMod
  | _ => none

/-- The hard-coded mods endpoint. -/
def modsUrl : String := "https://mods.vintagestory.at/api/mods"

/-- The hard-coded authors endpoint. -/
def authorsUrl : String := "https://mods.vintagestory.at/api/authors"

/-- The mods cache file path (`this_dir / mods.json`). -/
def mods_file : String := "mods.json"

/-- The authors cache file path (`this_dir / authors.json`). -/
def authors_file : String := "authors.json"

/-- How a run of `main` terminates. Every constructor carries the store
and filesystem state at termination. -/
inductive MainOutcome where
  | fetchError (fs : FS) (db : DB)
  | decodeError (fs : FS) (db : DB)
  | attrError (fs : FS) (db : DB)
  | multipleResults (fs : FS) (db : DB)
  | exited (fs : FS) (db : DB)
deriving DecidableEq, Repr

/-- The store state a `main` outcome carries. -/
def MainOutcome.db : MainOutcome → DB
  | .fetchError _ db => db
  | .decodeError _ db => db
  | .attrError _ db => db
  | .multipleResults _ db => db
  | .exited _ db => db

/-- Embedding of `main` (source lines 169 to 191 as executed): fetch the
two collections, build the author-name index, open the store, query the
author named `theysa` with `one_or_none`, and terminate — with an
`AttributeError` when that author is absent (`author.mods` on `None`), a
`MultipleResultsFound` error when the name is ambiguous, or at the
`exit()` call on line 191 after printing. The load loop on lines 194 to
230 sits after the unconditional `exit()` and is never reached, so `main`
never invokes `processRecord`/`runLoad`. (Lean reserves the top-level name
`main` for an entry point, hence the namespace.) -/
def VSM.main (net : Network) (fs : FS) (db : DB) : MainOutcome :=
  let r1 := download_load_data net fs modsUrl mods_file ("mods")
  match r1.value with
  | .error _ => .fetchError r1.fs db
  | .ok _modsJson =>
    let r2 := download_load_data net r1.fs authorsUrl authors_file ("authors")
    match r2.value with
    | .error _ => .fetchError r2.fs db
    | .ok authorsJson =>
      match decodeAuthors authorsJson with
      | none => .decodeError r2.fs db
      | some authors =>
        let _idx := authors_by_name authors
        match db.authors.filter (fun a => a.name == some ("theysa")) with
        | [] => .attrError r2.fs db
        | [_] => .exited r2.fs db
        | _ => .multipleResults r2.fs db

/-- The store's result after a (possibly aborted) load run. -/
def LoadResult.db : LoadResult → DB
  | .ok db => db
  | .err _ db => db

/-- The `(mod_id, tag_id)` content of a join row, abstracting the surrogate
primary key. -/
def modTagPair (r : ModTag) : Nat × Nat :=
  (r.mod_id, r.tag_id)

/-- The existence check of the author upsert. -/
def hasAuthorId (db : DB) (uid : Nat) : Bool :=
  db.authors.any (fun a => a.id == uid)

/-- The existence check of the mod upsert. -/
def hasModId (db : DB) (i : Nat) : Bool :=
  db.mods.any (fun r => r.id == i)

/-- The existence check of the alias-string upsert. -/
def hasModIdStr (db : DB) (s : String) : Bool :=
  db.modidStrs.any (fun r => r.modid_str == s)

/-- The existence check of the tag upsert. -/
def hasTag (db : DB) (t : String) : Bool :=
  db.tags.any (fun r => r.tag == t)

lemma hasAuthorId_congr {db db' : DB} (h : db'.authors = db.authors) (u : Nat) :
    hasAuthorId db' u = hasAuthorId db u := by
  unfold hasAuthorId; rw [h]

lemma hasModId_congr {db db' : DB} (h : db'.mods = db.mods) (i : Nat) :
    hasModId db' i = hasModId db i := by
  unfold hasModId; rw [h]

lemma hasModIdStr_congr {db db' : DB} (h : db'.modidStrs = db.modidStrs) (s : String) :
    hasModIdStr db' s = hasModIdStr db s := by
  unfold hasModIdStr; rw [h]

lemma hasTag_congr {db db' : DB} (h : db'.tags = db.tags) (t : String) :
    hasTag db' t = hasTag db t := by
  unfold hasTag; rw [h]

lemma tagIdFor_congr {db db' : DB} (h1 : db'.tags = db.tags)
    (h2 : db'.nextTagId = db.nextTagId) (t : String) :
    tagIdFor db' t = tagIdFor db t := by
  unfold tagIdFor; rw [h1, h2]

lemma upsertAuthor_mods (db : DB) (ad : RawAuthor) :
    (upsertAuthor db ad).mods = db.mods := by
  unfold upsertAuthor; split <;> rfl

lemma upsertAuthor_modidStrs (db : DB) (ad : RawAuthor) :
    (upsertAuthor db ad).modidStrs = db.modidStrs := by
  unfold upsertAuthor; split <;> rfl

lemma upsertAuthor_tags (db : DB) (ad : RawAuthor) :
    (upsertAuthor db ad).tags = db.tags := by
  unfold upsertAuthor; split <;> rfl

lemma upsertAuthor_skip (db : DB) (ad : RawAuthor)
    (h : hasAuthorId db ad.userid = true) : upsertAuthor db ad = db := by
  unfold upsertAuthor
  unfold hasAuthorId at h
  simp [h]

lemma upsertAuthor_has_self (db : DB) (ad : RawAuthor) :
    hasAuthorId (upsertAuthor db ad) ad.userid = true := by
  unfold upsertAuthor hasAuthorId
  split
  · assumption
  · simp [List.any_append]

lemma upsertAuthor_mono (db : DB) (ad : RawAuthor) (u : Nat)
    (h : hasAuthorId db u = true) : hasAuthorId (upsertAuthor db ad) u = true := by
  unfold upsertAuthor hasAuthorId at *
  split
  · exact h
  · simp [List.any_append, h]

lemma upsertAuthor_le (db : DB) (ad : RawAuthor) :
    ∃ l, (upsertAuthor db ad).authors = db.authors ++ l := by
  unfold upsertAuthor
  split
  · exact ⟨[], by simp⟩
  · exact ⟨_, rfl⟩

lemma upsertMod_skip (tz : Int) (db : DB) (m : RawMod) (aid : Nat)
    (h : hasModId db m.modid = true) : upsertMod tz db m aid = .ok db := by
  unfold upsertMod
  unfold hasModId at h
  simp [h]

lemma upsertMod_ok_fields (tz : Int) (db : DB) (m : RawMod) (aid : Nat) (db' : DB)
    (h : upsertMod tz db m aid = .ok db') :
    db'.authors = db.authors ∧ db'.modidStrs = db.modidStrs ∧ db'.tags = db.tags ∧
    db'.modTags = db.modTags ∧ db'.nextTagId = db.nextTagId ∧
    db'.nextModTagId = db.nextModTagId ∧ hasModId db' m.modid = true ∧
    ∃ l, db'.mods = db.mods ++ l := by
  unfold upsertMod at h
  split at h
  · cases h
    refine ⟨rfl, rfl, rfl, rfl, rfl, rfl, by assumption, [], by simp⟩
  · rename_i hany
    cases hb : process_bind_param tz m.lastreleased with
    | error e => rw [hb] at h; cases h
    | ok ts =>
      rw [hb] at h
      cases hA : db.mods.any (fun r => r.assetid == m.assetid) with
      | true =>
        rw [hA] at h
        simp at h
      | false =>
        rw [hA] at h
        simp only [Bool.false_eq_true, if_false, Except.ok.injEq] at h
        subst h
        refine ⟨rfl, rfl, rfl, rfl, rfl, rfl, ?_, _, rfl⟩
        unfold hasModId
        simp [List.any_append, normalizedModRow]

lemma upsertModIdStr_authors (db : DB) (modId : Nat) (s : String) :
    (upsertModIdStr db modId s).authors = db.authors := by
  unfold upsertModIdStr; split <;> rfl

lemma upsertModIdStr_mods (db : DB) (modId : Nat) (s : String) :
    (upsertModIdStr db modId s).mods = db.mods := by
  unfold upsertModIdStr; split <;> rfl

lemma upsertModIdStr_tags (db : DB) (modId : Nat) (s : String) :
    (upsertModIdStr db modId s).tags = db.tags := by
  unfold upsertModIdStr; split <;> rfl

lemma upsertModIdStr_skip (db : DB) (modId : Nat) (s : String)
    (h : hasModIdStr db s = true) : upsertModIdStr db modId s = db := by
  unfold upsertModIdStr
  unfold hasModIdStr at h
  simp [h]

lemma upsertModIdStr_has_self (db : DB) (modId : Nat) (s : String) :
    hasModIdStr (upsertModIdStr db modId s) s = true := by
  unfold upsertModIdStr hasModIdStr
  split
  · assumption
  · simp [List.any_append]

lemma upsertModIdStr_mono (db : DB) (modId : Nat) (s u : String)
    (h : hasModIdStr db u = true) : hasModIdStr (upsertModIdStr db modId s) u = true := by
  unfold upsertModIdStr hasModIdStr at *
  split
  · exact h
  · simp [List.any_append, h]

lemma upsertModIdStr_le (db : DB) (modId : Nat) (s : String) :
    ∃ l, (upsertModIdStr db modId s).modidStrs = db.modidStrs ++ l := by
  unfold upsertModIdStr
  split
  · exact ⟨[], by simp⟩
  · exact ⟨_, rfl⟩

lemma upsertTagAttach_authors (db : DB) (modId : Nat) (t : String) :
    (upsertTagAttach db modId t).authors = db.authors := by
  unfold upsertTagAttach; split <;> rfl

lemma upsertTagAttach_mods (db : DB) (modId : Nat) (t : String) :
    (upsertTagAttach db modId t).mods = db.mods := by
  unfold upsertTagAttach; split <;> rfl

lemma upsertTagAttach_modidStrs (db : DB) (modId : Nat) (t : String) :
    (upsertTagAttach db modId t).modidStrs = db.modidStrs := by
  unfold upsertTagAttach; split <;> rfl

lemma upsertTagAttach_modTags (db : DB) (modId : Nat) (t : String) :
    (upsertTagAttach db modId t).modTags =
      db.modTags ++ [{ id := db.nextModTagId, mod_id := modId, tag_id := tagIdFor db t }] := by
  unfold upsertTagAttach; split <;> rfl

lemma upsertTagAttach_nextModTagId (db : DB) (modId : Nat) (t : String) :
    (upsertTagAttach db modId t).nextModTagId = db.nextModTagId + 1 := by
  unfold upsertTagAttach; split <;> rfl

lemma upsertTagAttach_skip_tags (db : DB) (modId : Nat) (t : String)
    (h : hasTag db t = true) :
    (upsertTagAttach db modId t).tags = db.tags ∧
    (upsertTagAttach db modId t).nextTagId = db.nextTagId := by
  unfold upsertTagAttach
  unfold hasTag at h
  simp [h]

lemma upsertTagAttach_has_self (db : DB) (modId : Nat) (t : String) :
    hasTag (upsertTagAttach db modId t) t = true := by
  unfold upsertTagAttach hasTag
  split
  · assumption
  · simp [List.any_append]

lemma upsertTagAttach_tag_mono (db : DB) (modId : Nat) (t u : String)
    (h : hasTag db u = true) : hasTag (upsertTagAttach db modId t) u = true := by
  unfold upsertTagAttach hasTag at *
  split
  · exact h
  · simp [List.any_append, h]

lemma upsertTagAttach_tags_le (db : DB) (modId : Nat) (t : String) :
    ∃ l, (upsertTagAttach db modId t).tags = db.tags ++ l := by
  unfold upsertTagAttach
  split
  · exact ⟨[], by simp⟩
  · exact ⟨_, rfl⟩

lemma misFold_authors (ss : List String) (modId : Nat) (db : DB) :
    (ss.foldl (fun d s => upsertModIdStr d modId s) db).authors = db.authors := by
  induction ss generalizing db with
  | nil => rfl
  | cons s rest ih =>
    rw [List.foldl_cons, ih, upsertModIdStr_authors]

lemma misFold_mods (ss : List String) (modId : Nat) (db : DB) :
    (ss.foldl (fun d s => upsertModIdStr d modId s) db).mods = db.mods := by
  induction ss generalizing db with
  | nil => rfl
  | cons s rest ih =>
    rw [List.foldl_cons, ih, upsertModIdStr_mods]

lemma misFold_tags (ss : List String) (modId : Nat) (db : DB) :
    (ss.foldl (fun d s => upsertModIdStr d modId s) db).tags = db.tags := by
  induction ss generalizing db with
  | nil => rfl
  | cons s rest ih =>
    rw [List.foldl_cons, ih, upsertModIdStr_tags]

lemma misFold_skip (ss : List String) (modId : Nat) (db : DB)
    (h : ∀ s ∈ ss, hasModIdStr db s = true) :
    ss.foldl (fun d s => upsertModIdStr d modId s) db = db := by
  induction ss with
  | nil => rfl
  | cons s rest ih =>
    rw [List.foldl_cons, upsertModIdStr_skip db modId s (h s (by simp))]
    exact ih (fun x hx => h x (by simp [hx]))

lemma misFold_mono (ss : List String) (modId : Nat) (db : DB) (u : String)
    (h : hasModIdStr db u = true) :
    hasModIdStr (ss.foldl (fun d s => upsertModIdStr d modId s) db) u = true := by
  induction ss generalizing db with
  | nil => exact h
  | cons s rest ih =>
    rw [List.foldl_cons]
    exact ih _ (upsertModIdStr_mono db modId s u h)

lemma misFold_establish (ss : List String) (modId : Nat) (db : DB) :
    ∀ s ∈ ss, hasModIdStr (ss.foldl (fun d s => upsertModIdStr d modId s) db) s = true := by
  induction ss generalizing db with
  | nil => intro s hs; cases hs
  | cons s rest ih =>
    intro x hx
    rw [List.foldl_cons]
    rcases List.mem_cons.mp hx with h | h
    · subst h
      exact misFold_mono rest modId _ x (upsertModIdStr_has_self db modId x)
    · exact ih _ x h

lemma misFold_le (ss : List String) (modId : Nat) (db : DB) :
    ∃ l, (ss.foldl (fun d s => upsertModIdStr d modId s) db).modidStrs = db.modidStrs ++ l := by
  induction ss generalizing db with
  | nil => exact ⟨[], by simp⟩
  | cons s rest ih =>
    rw [List.foldl_cons]
    obtain ⟨l1, h1⟩ := ih (upsertModIdStr db modId s)
    obtain ⟨l0, h0⟩ := upsertModIdStr_le db modId s
    exact ⟨l0 ++ l1, by rw [h1, h0, List.append_assoc]⟩

lemma tagFold_authors (ts : List String) (modId : Nat) (db : DB) :
    (ts.foldl (fun d t => upsertTagAttach d modId t) db).authors = db.authors := by
  induction ts generalizing db with
  | nil => rfl
  | cons t rest ih =>
    rw [List.foldl_cons, ih, upsertTagAttach_authors]

lemma tagFold_mods (ts : List String) (modId : Nat) (db : DB) :
    (ts.foldl (fun d t => upsertTagAttach d modId t) db).mods = db.mods := by
  induction ts generalizing db with
  | nil => rfl
  | cons t rest ih =>
    rw [List.foldl_cons, ih, upsertTagAttach_mods]

lemma tagFold_modidStrs (ts : List String) (modId : Nat) (db : DB) :
    (ts.foldl (fun d t => upsertTagAttach d modId t) db).modidStrs = db.modidStrs := by
  induction ts generalizing db with
  | nil => rfl
  | cons t rest ih =>
    rw [List.foldl_cons, ih, upsertTagAttach_modidStrs]

lemma tagFold_tag_mono (ts : List String) (modId : Nat) (db : DB) (u : String)
    (h : hasTag db u = true) :
    hasTag (ts.foldl (fun d t => upsertTagAttach d modId t) db) u = true := by
  induction ts generalizing db with
  | nil => exact h
  | cons t rest ih =>
    rw [List.foldl_cons]
    exact ih _ (upsertTagAttach_tag_mono db modId t u h)

lemma tagFold_establish (ts : List String) (modId : Nat) (db : DB) :
    ∀ t ∈ ts, hasTag (ts.foldl (fun d t => upsertTagAttach d modId t) db) t = true := by
  induction ts generalizing db with
  | nil => intro t ht; cases ht
  | cons t rest ih =>
    intro x hx
    rw [List.foldl_cons]
    rcases List.mem_cons.mp hx with h | h
    · subst h
      exact tagFold_tag_mono rest modId _ x (upsertTagAttach_has_self db modId x)
    · exact ih _ x h

lemma tagFold_tags_le (ts : List String) (modId : Nat) (db : DB) :
    ∃ l, (ts.foldl (fun d t => upsertTagAttach d modId t) db).tags = db.tags ++ l := by
  induction ts generalizing db with
  | nil => exact ⟨[], by simp⟩
  | cons t rest ih =>
    rw [List.foldl_cons]
    obtain ⟨l1, h1⟩ := ih (upsertTagAttach db modId t)
    obtain ⟨l0, h0⟩ := upsertTagAttach_tags_le db modId t
    exact ⟨l0 ++ l1, by rw [h1, h0, List.append_assoc]⟩

lemma tagFold_saturated (ts : List String) (modId : Nat) (db : DB)
    (h : ∀ t ∈ ts, hasTag db t = true) :
    (ts.foldl (fun d t => upsertTagAttach d modId t) db).tags = db.tags ∧
    (ts.foldl (fun d t => upsertTagAttach d modId t) db).nextTagId = db.nextTagId ∧
    (ts.foldl (fun d t => upsertTagAttach d modId t) db).modTags.map modTagPair =
      db.modTags.map modTagPair ++ ts.map (fun t => (modId, tagIdFor db t)) ∧
    (ts.foldl (fun d t => upsertTagAttach d modId t) db).nextModTagId =
      db.nextModTagId + ts.length := by
  induction ts generalizing db with
  | nil => exact ⟨rfl, rfl, by simp, rfl⟩
  | cons t rest ih =>
    rw [List.foldl_cons]
    have ht := h t (by simp)
    obtain ⟨htags, hnext⟩ := upsertTagAttach_skip_tags db modId t ht
    have hrest : ∀ x ∈ rest, hasTag (upsertTagAttach db modId t) x = true := by
      intro x hx
      rw [hasTag_congr htags]
      exact h x (by simp [hx])
    obtain ⟨i1, i2, i3, i4⟩ := ih (upsertTagAttach db modId t) hrest
    refine ⟨by rw [i1, htags], by rw [i2, hnext], ?_, ?_⟩
    · rw [i3, upsertTagAttach_modTags]
      rw [List.map_append, List.append_assoc]
      congr 1
      have hids : ∀ x, tagIdFor (upsertTagAttach db modId t) x = tagIdFor db x :=
        fun x => tagIdFor_congr htags hnext x
      simp [modTagPair, hids]
    · rw [i4, upsertTagAttach_nextModTagId]
      simp [List.length_cons]
      omega

/-- Everything one raw mod record needs is already present in the store, so
processing it again performs no insert into the four entity tables. -/
def Saturated (idx : AuthorIndex) (db : DB) (m : RawMod) : Prop :=
  ∃ ad, idx m.author = some ad ∧ hasAuthorId db ad.userid = true ∧
    hasModId db m.modid = true ∧
    (∀ s ∈ m.modidstrs, hasModIdStr db s = true) ∧
    (∀ t ∈ m.tags, hasTag db t = true)

/-- The four entity tables of `db'` extend those of `db` by appended rows
(the program never deletes or reorders). -/
def DBLe (db db' : DB) : Prop :=
  (∃ l, db'.authors = db.authors ++ l) ∧ (∃ l, db'.mods = db.mods ++ l) ∧
  (∃ l, db'.modidStrs = db.modidStrs ++ l) ∧ (∃ l, db'.tags = db.tags ++ l)

lemma DBLe_refl (db : DB) : DBLe db db :=
  ⟨⟨[], by simp⟩, ⟨[], by simp⟩, ⟨[], by simp⟩, ⟨[], by simp⟩⟩

lemma DBLe_trans {db1 db2 db3 : DB} (h1 : DBLe db1 db2) (h2 : DBLe db2 db3) :
    DBLe db1 db3 := by
  obtain ⟨⟨a1, ha1⟩, ⟨b1, hb1⟩, ⟨c1, hc1⟩, ⟨d1, hd1⟩⟩ := h1
  obtain ⟨⟨a2, ha2⟩, ⟨b2, hb2⟩, ⟨c2, hc2⟩, ⟨d2, hd2⟩⟩ := h2
  exact ⟨⟨a1 ++ a2, by rw [ha2, ha1, List.append_assoc]⟩,
    ⟨b1 ++ b2, by rw [hb2, hb1, List.append_assoc]⟩,
    ⟨c1 ++ c2, by rw [hc2, hc1, List.append_assoc]⟩,
    ⟨d1 ++ d2, by rw [hd2, hd1, List.append_assoc]⟩⟩

lemma hasAuthorId_mono_append {db db' : DB} (h : ∃ l, db'.authors = db.authors ++ l)
    (u : Nat) (hu : hasAuthorId db u = true) : hasAuthorId db' u = true := by
  obtain ⟨l, hl⟩ := h
  unfold hasAuthorId at *
  rw [hl]
  simp [List.any_append, hu]

lemma hasModId_mono_append {db db' : DB} (h : ∃ l, db'.mods = db.mods ++ l)
    (i : Nat) (hi : hasModId db i = true) : hasModId db' i = true := by
  obtain ⟨l, hl⟩ := h
  unfold hasModId at *
  rw [hl]
  simp [List.any_append, hi]

lemma hasModIdStr_mono_append {db db' : DB} (h : ∃ l, db'.modidStrs = db.modidStrs ++ l)
    (s : String) (hs : hasModIdStr db s = true) : hasModIdStr db' s = true := by
  obtain ⟨l, hl⟩ := h
  unfold hasModIdStr at *
  rw [hl]
  simp [List.any_append, hs]

lemma hasTag_mono_append {db db' : DB} (h : ∃ l, db'.tags = db.tags ++ l)
    (t : String) (ht : hasTag db t = true) : hasTag db' t = true := by
  obtain ⟨l, hl⟩ := h
  unfold hasTag at *
  rw [hl]
  simp [List.any_append, ht]

lemma Saturated_mono {idx : AuthorIndex} {db db' : DB} {m : RawMod}
    (hle : DBLe db db') (h : Saturated idx db m) : Saturated idx db' m := by
  obtain ⟨ad, hidx, hA, hM, hS, hT⟩ := h
  obtain ⟨la, lm, ls, lt⟩ := hle
  exact ⟨ad, hidx, hasAuthorId_mono_append la _ hA, hasModId_mono_append lm _ hM,
    fun s hs => hasModIdStr_mono_append ls s (hS s hs),
    fun t ht => hasTag_mono_append lt t (hT t ht)⟩

lemma Saturated_congr {idx : AuthorIndex} {db db' : DB} {m : RawMod}
    (ha : db'.authors = db.authors) (hm : db'.mods = db.mods)
    (hs : db'.modidStrs = db.modidStrs) (ht : db'.tags = db.tags)
    (h : Saturated idx db m) : Saturated idx db' m := by
  obtain ⟨ad, hidx, hA, hM, hS, hT⟩ := h
  refine ⟨ad, hidx, ?_, ?_, ?_, ?_⟩
  · rw [hasAuthorId_congr ha]; exact hA
  · rw [hasModId_congr hm]; exact hM
  · intro s hs2; rw [hasModIdStr_congr hs]; exact hS s hs2
  · intro t ht2; rw [hasTag_congr ht]; exact hT t ht2

lemma upsertAuthor_DBLe (db : DB) (ad : RawAuthor) : DBLe db (upsertAuthor db ad) :=
  ⟨upsertAuthor_le db ad, ⟨[], by rw [upsertAuthor_mods]; simp⟩,
   ⟨[], by rw [upsertAuthor_modidStrs]; simp⟩, ⟨[], by rw [upsertAuthor_tags]; simp⟩⟩

lemma upsertMod_DBLe (tz : Int) (db : DB) (m : RawMod) (aid : Nat) (db' : DB)
    (h : upsertMod tz db m aid = .ok db') : DBLe db db' := by
  obtain ⟨ha, hs, ht, _, _, _, _, hm⟩ := upsertMod_ok_fields tz db m aid db' h
  exact ⟨⟨[], by rw [ha]; simp⟩, hm, ⟨[], by rw [hs]; simp⟩, ⟨[], by rw [ht]; simp⟩⟩

lemma misFold_DBLe (ss : List String) (modId : Nat) (db : DB) :
    DBLe db (ss.foldl (fun d s => upsertModIdStr d modId s) db) :=
  ⟨⟨[], by rw [misFold_authors]; simp⟩, ⟨[], by rw [misFold_mods]; simp⟩,
   misFold_le ss modId db, ⟨[], by rw [misFold_tags]; simp⟩⟩

lemma tagFold_DBLe (ts : List String) (modId : Nat) (db : DB) :
    DBLe db (ts.foldl (fun d t => upsertTagAttach d modId t) db) :=
  ⟨⟨[], by rw [tagFold_authors]; simp⟩, ⟨[], by rw [tagFold_mods]; simp⟩,
   ⟨[], by rw [tagFold_modidStrs]; simp⟩, tagFold_tags_le ts modId db⟩

lemma processRecord_le (tz : Int) (idx : AuthorIndex) (db : DB) (m : RawMod) (db' : DB)
    (h : processRecord tz idx db m = .ok db') : DBLe db db' := by
  unfold processRecord at h
  split at h
  · exact (LoadResult.noConfusion h)
  · rename_i ad hidx
    split at h
    · exact (LoadResult.noConfusion h)
    · rename_i db2 hum
      cases h
      exact DBLe_trans (upsertAuthor_DBLe db ad)
        (DBLe_trans (upsertMod_DBLe tz _ m ad.userid db2 hum)
          (DBLe_trans (misFold_DBLe m.modidstrs m.modid db2)
            (tagFold_DBLe m.tags m.modid _)))

lemma processRecord_establish (tz : Int) (idx : AuthorIndex) (db : DB) (m : RawMod)
    (db' : DB) (h : processRecord tz idx db m = .ok db') : Saturated idx db' m := by
  unfold processRecord at h
  split at h
  · exact (LoadResult.noConfusion h)
  · rename_i ad hidx
    split at h
    · exact (LoadResult.noConfusion h)
    · rename_i db2 hum
      cases h
      obtain ⟨ha2, hs2, ht2, _, _, _, hM2, _⟩ :=
        upsertMod_ok_fields tz (upsertAuthor db ad) m ad.userid db2 hum
      refine ⟨ad, hidx, ?_, ?_, ?_, ?_⟩
      · rw [hasAuthorId_congr (tagFold_authors m.tags m.modid _),
          hasAuthorId_congr (misFold_authors m.modidstrs m.modid db2),
          hasAuthorId_congr ha2]
        exact upsertAuthor_has_self db ad
      · rw [hasModId_congr (tagFold_mods m.tags m.modid _),
          hasModId_congr (misFold_mods m.modidstrs m.modid db2)]
        exact hM2
      · intro s hs
        rw [hasModIdStr_congr (tagFold_modidStrs m.tags m.modid _)]
        exact misFold_establish m.modidstrs m.modid db2 s hs
      · intro t ht
        exact tagFold_establish m.tags m.modid _ t ht

lemma processRecord_skip (tz : Int) (idx : AuthorIndex) (db : DB) (m : RawMod)
    (h : Saturated idx db m) :
    ∃ db', processRecord tz idx db m = .ok db' ∧
      db'.authors = db.authors ∧ db'.mods = db.mods ∧
      db'.modidStrs = db.modidStrs ∧ db'.tags = db.tags ∧
      db'.nextTagId = db.nextTagId ∧
      db'.modTags.map modTagPair = db.modTags.map modTagPair ++
        m.tags.map (fun t => (m.modid, tagIdFor db t)) ∧
      db'.nextModTagId = db.nextModTagId + m.tags.length := by
  obtain ⟨ad, hidx, hA, hM, hS, hT⟩ := h
  have hua := upsertAuthor_skip db ad hA
  have hum := upsertMod_skip tz db m ad.userid hM
  have hmis := misFold_skip m.modidstrs m.modid db hS
  obtain ⟨t1, t2, t3, t4⟩ := tagFold_saturated m.tags m.modid db hT
  refine ⟨m.tags.foldl (fun d t => upsertTagAttach d m.modid t) db, ?_,
    tagFold_authors m.tags m.modid db, tagFold_mods m.tags m.modid db,
    tagFold_modidStrs m.tags m.modid db, t1, t2, t3, t4⟩
  simp only [processRecord, hidx, hua, hum, hmis]

lemma runLoad_le (tz : Int) (idx : AuthorIndex) (db : DB) (mods : List RawMod)
    (db1 : DB) (h : runLoad tz idx db mods = .ok db1) : DBLe db db1 := by
  induction mods generalizing db with
  | nil =>
    unfold runLoad at h
    cases h
    exact DBLe_refl db1
  | cons m rest ih =>
    unfold runLoad at h
    split at h
    · exact (LoadResult.noConfusion h)
    · rename_i d hpr
      exact DBLe_trans (processRecord_le tz idx db m d hpr) (ih d h)

lemma runLoad_saturates (tz : Int) (idx : AuthorIndex) (db : DB) (mods : List RawMod)
    (db1 : DB) (h : runLoad tz idx db mods = .ok db1) :
    ∀ m ∈ mods, Saturated idx db1 m := by
  induction mods generalizing db with
  | nil => intro m hm; cases hm
  | cons m rest ih =>
    intro x hx
    unfold runLoad at h
    split at h
    · exact (LoadResult.noConfusion h)
    · rename_i d hpr
      rcases List.mem_cons.mp hx with hxm | hxr
      · subst hxm
        exact Saturated_mono (runLoad_le tz idx d rest db1 h)
          (processRecord_establish tz idx db x d hpr)
      · exact ih d h x hxr

lemma runLoad_skip (tz : Int) (idx : AuthorIndex) (db : DB) (mods : List RawMod)
    (h : ∀ m ∈ mods, Saturated idx db m) :
    ∃ db2, runLoad tz idx db mods = .ok db2 ∧
      db2.authors = db.authors ∧ db2.mods = db.mods ∧
      db2.modidStrs = db.modidStrs ∧ db2.tags = db.tags ∧
      db2.nextTagId = db.nextTagId ∧
      db2.modTags.map modTagPair = db.modTags.map modTagPair ++
        mods.flatMap (fun m => m.tags.map (fun t => (m.modid, tagIdFor db t))) := by
  induction mods generalizing db with
  | nil => exact ⟨db, rfl, rfl, rfl, rfl, rfl, rfl, by simp⟩
  | cons m rest ih =>
    obtain ⟨d, hpr, pa, pm, ps, pt, pn, pmt, _⟩ :=
      processRecord_skip tz idx db m (h m (by simp))
    have hrest : ∀ x ∈ rest, Saturated idx d x := by
      intro x hx
      exact Saturated_congr pa pm ps pt (h x (by simp [hx]))
    obtain ⟨db2, hrun, qa, qm, qs, qt, qn, qmt⟩ := ih d hrest
    refine ⟨db2, ?_, by rw [qa, pa], by rw [qm, pm], by rw [qs, ps],
      by rw [qt, pt], by rw [qn, pn], ?_⟩
    · unfold runLoad
      rw [hpr]
      exact hrun
    · rw [qmt, pmt]
      have hids : ∀ x, tagIdFor d x = tagIdFor db x :=
        fun x => tagIdFor_congr pt pn x
      simp only [List.flatMap_cons, hids, List.append_assoc]

lemma authors_by_name_aux (A : List RawAuthor) (d : AuthorIndex) (k : String)
    (h : ∀ a ∈ A, a.name ≠ some k) :
    (A.foldl (fun d a => match a.name with
      | none => d
      | some n => fun k2 => if k2 == n then some a else d k2) d) k = d k := by
  induction A generalizing d with
  | nil => rfl
  | cons a rest ih =>
    rw [List.foldl_cons]
    rw [ih _ (fun x hx => h x (by simp [hx]))]
    cases hn : a.name with
    | none => simp only [hn]
    | some n =>
      simp only [hn]
      have hk : (k == n) = false := by
        rw [beq_eq_false_iff_ne]
        intro he
        exact (h a (by simp)) (by rw [hn, he])
      rw [hk]
      simp

lemma authors_by_name_none (A : List RawAuthor) (k : String)
    (h : ∀ a ∈ A, a.name ≠ some k) : authors_by_name A k = none := by
  unfold authors_by_name
  rw [authors_by_name_aux A _ k h]

lemma authors_by_name_filter_aux (A : List RawAuthor) (d : AuthorIndex) :
    A.foldl (fun d a => match a.name with
      | none => d
      | some n => fun k2 => if k2 == n then some a else d k2) d =
    (A.filter (fun a => a.name.isSome)).foldl (fun d a => match a.name with
      | none => d
      | some n => fun k2 => if k2 == n then some a else d k2) d := by
  induction A generalizing d with
  | nil => rfl
  | cons a rest ih =>
    rw [List.foldl_cons]
    cases hn : a.name with
    | none =>
      have hf : (a :: rest).filter (fun a => a.name.isSome) =
          rest.filter (fun a => a.name.isSome) := by
        rw [List.filter_cons]
        simp [hn]
      rw [hf]
      simp only [hn]
      exact ih d
    | some n =>
      have hf : (a :: rest).filter (fun a => a.name.isSome) =
          a :: rest.filter (fun a => a.name.isSome) := by
        rw [List.filter_cons]
        simp [hn]
      rw [hf, List.foldl_cons]
      simp only [hn]
      exact ih _

lemma processRecord_keyError (tz : Int) (idx : AuthorIndex) (db : DB) (m : RawMod)
    (h : idx m.author = none) :
    processRecord tz idx db m = .err (.keyError m.author) db := by
  simp only [processRecord, h]

/-- Shared concrete raw author record for witnesses. -/
def author0 : RawAuthor := { userid := 7, name := some ("al") }

/-- Shared concrete raw mod record for witnesses. -/
def mod0 : RawMod :=
  { modid := 1, author := "al", modidstrs := ["mm"], tags := ["t"],
    assetid := 10, name := "m", summary := none, urlalias := none,
    downloads := 5, follows := 2, trendingpoints := 3, comments := 4,
    logo := none, side := .both, type_ := .mod,
    lastreleased := some (.str ("2023-05-01 12:00:00")) }

/-- Shared failing network for witnesses (every GET raises). -/
def net0 : Network := fun _ => .error ("ConnectionError")

/-- Claim C4: for every URL, path, and key, if the cache file at the path
already exists, the fetch routine returns the parsed contents of that file
without making any network call, regardless of the URL and key arguments. -/
theorem claim_C4 (net : Network) (fs : FS) (url filepath key c : String)
    (h : fsRead fs filepath = some c) :
    download_load_data net fs url filepath key =
      { value := json_loads c, fs := fs, networkCalled := false } := by
  simp only [download_load_data, h]

/-- Witness for C4 at a concrete cache file holding the array of the two
strings a and b: the parsed array comes back, the filesystem is untouched,
and the (failing) network is never contacted. -/
theorem claim_C4_witness :
    download_load_data net0 [(("p" : String), ("[\"a\", \"b\"]" : String))]
      ("u") ("p") ("X") =
      { value := .ok (.arr [.str ("a"), .str ("b")]),
        fs := [(("p" : String), ("[\"a\", \"b\"]" : String))],
        networkCalled := false } := by
  rw [claim_C4 net0 [(("p" : String), ("[\"a\", \"b\"]" : String))]
    ("u") ("p") ("X") ("[\"a\", \"b\"]") rfl]
  rfl

/-- Claim C8: when the cache file is absent, the cache file is written only
after the HTTP body has been decoded as JSON and the payload array
extracted; a network error, a JSON decode error, or a missing key
propagates and leaves the filesystem unchanged. -/
theorem claim_C8 (net : Network) (fs : FS) (url filepath key : String)
    (habs : fsRead fs filepath = none) :
    (∀ e, net url = .error e →
      download_load_data net fs url filepath key =
        { value := .error e, fs := fs, networkCalled := true }) ∧
    (∀ body e2, net url = .ok body → json_loads body = .error e2 →
      download_load_data net fs url filepath key =
        { value := .error e2, fs := fs, networkCalled := true }) ∧
    (∀ body j, net url = .ok body → json_loads body = .ok j →
      jsonGetKey j key = none →
      download_load_data net fs url filepath key =
        { value := .error ("KeyError"), fs := fs, networkCalled := true }) ∧
    (∀ body j mods, net url = .ok body → json_loads body = .ok j →
      jsonGetKey j key = some mods →
      (download_load_data net fs url filepath key).fs =
        fsWrite fs filepath (jsonDump mods)) := by
  refine ⟨?_, ?_, ?_, ?_⟩
  · intro e h1
    simp only [download_load_data, habs, h1]
  · intro body e2 h1 h2
    simp only [download_load_data, habs, h1, h2]
  · intro body j h1 h2 h3
    simp only [download_load_data, habs, h1, h2, h3]
  · intro body j mods h1 h2 h3
    simp only [download_load_data, habs, h1, h2, h3]
    split <;> rfl

/-- Witness for C8 at a concrete empty filesystem and a failing network:
the connection error propagates and no cache file is created. -/
theorem claim_C8_witness :
    download_load_data net0 [] ("u") ("p") ("k") =
      { value := .error ("ConnectionError"), fs := [], networkCalled := true } :=
  (claim_C8 net0 [] ("u") ("p") ("k") rfl).1 ("ConnectionError") rfl

/-- Claim C5: a lastreleased value written through the timestamp codec as
the calendar string 2023-05-01 12:00:00 binds to the Unix-epoch second that
the string encodes (under any fixed local offset `tz`), and reads back via
`fromtimestamp` as exactly that calendar timestamp — decode after encode
equals the direct epoch-to-calendar conversion, bit for bit. -/
theorem claim_C5 (tz : Int) :
    ∃ e : Int,
      process_bind_param tz (some (.str ("2023-05-01 12:00:00"))) = .ok (some e) ∧
      e = timestamp tz { year := 2023, month := 5, day := 1,
                         hour := 12, minute := 0, second := 0 } ∧
      process_result_value tz (some e) = some (fromtimestamp tz e) ∧
      fromtimestamp tz e = { year := 2023, month := 5, day := 1,
                             hour := 12, minute := 0, second := 0 } := by
  have hparse : str_to_datetime ("2023-05-01 12:00:00") =
      .ok { year := 2023, month := 5, day := 1, hour := 12, minute := 0, second := 0 } :=
    rfl
  have hepoch : epochUTC { year := 2023, month := 5, day := 1,
                           hour := 12, minute := 0, second := 0 } = 1682942400 := by
    decide
  have hts : timestamp tz { year := 2023, month := 5, day := 1,
                            hour := 12, minute := 0, second := 0 } = 1682942400 - tz := by
    unfold timestamp
    rw [hepoch]
  have hback : fromtimestamp tz (1682942400 - tz) =
      { year := 2023, month := 5, day := 1, hour := 12, minute := 0, second := 0 } := by
    unfold fromtimestamp
    have hc : (1682942400 : Int) - tz + tz = 1682942400 := by ring
    rw [hc]
    decide
  refine ⟨1682942400 - tz, ?_, by rw [hts], rfl, hback⟩
  simp only [process_bind_param, hparse, hts]

/-- Claim C6: a mod record whose author field names an author absent from
the author-name index fails the mapping step deterministically with a
lookup error (there is no fallback and no fuzzy match), and no rows derived
from that record are written: the store comes back unchanged. -/
theorem claim_C6 (tz : Int) (A : List RawAuthor) (db : DB) (m : RawMod)
    (h : ∀ a ∈ A, a.name ≠ some m.author) :
    processRecord tz (authors_by_name A) db m = .err (.keyError m.author) db :=
  processRecord_keyError tz (authors_by_name A) db m (authors_by_name_none A m.author h)

/-- Witness for C6: one author named bob is fetched, the record names al;
processing fails with the key error and the empty store is unchanged. -/
theorem claim_C6_witness :
    processRecord 0 (authors_by_name [{ userid := 9, name := some ("bob") }])
      emptyDB mod0 = .err (.keyError ("al")) emptyDB :=
  claim_C6 0 [{ userid := 9, name := some ("bob") }] emptyDB mod0 (by decide)

/-- Claim C9 (implicit): the author-name index excludes every raw author
record whose name field is null — the index over any collection equals the
index over the collection with the null-named records filtered out — so a
mod record pointing at such an author fails with the same lookup error as a
completely unknown author, with nothing written, even though the record is
present in the fetched collection. -/
theorem claim_C9 :
    (∀ A : List RawAuthor,
      authors_by_name A = authors_by_name (A.filter (fun a => a.name.isSome))) ∧
    (∀ (tz : Int) (db : DB) (m : RawMod) (a : RawAuthor), a.name = none →
      processRecord tz (authors_by_name [a]) db m = .err (.keyError m.author) db) := by
  constructor
  · intro A
    unfold authors_by_name
    exact authors_by_name_filter_aux A _
  · intro tz db m a ha
    refine processRecord_keyError tz _ db m (authors_by_name_none [a] m.author ?_)
    intro x hx
    rw [List.mem_singleton.mp hx, ha]
    exact fun he => Option.noConfusion he

/-- Witness for C9: a single fetched author record with a null name; the
index is empty and processing the sample record fails exactly as for an
unknown author. -/
theorem claim_C9_witness :
    processRecord 0 (authors_by_name [{ userid := 7, name := none }]) emptyDB mod0 =
      .err (.keyError ("al")) emptyDB :=
  claim_C9.2 0 emptyDB mod0 { userid := 7, name := none } rfl

/-- The store after one load run over the shared sample input. -/
def dbOnce : DB :=
  { authors := [{ id := 7, name := some ("al") }],
    mods := [normalizedModRow mod0 7 (some 1682942400)],
    modidStrs := [{ modid_str := "mm", mod_id := 1 }],
    tags := [{ id := 0, tag := "t" }],
    modTags := [{ id := 0, mod_id := 1, tag_id := 0 }],
    modVersions := [], nextTagId := 1, nextModTagId := 1 }

/-- Claim C3: for every raw input, running the load stage a second time
over the same mods and authors collections leaves the Author, Mod, Tag and
ModIdStr tables exactly as one run left them: the second run succeeds, no
row is duplicated by external id or natural string key, and no existing
row's fields are updated. -/
theorem claim_C3 (tz : Int) (A : List RawAuthor) (db0 : DB) (mods : List RawMod)
    (db1 : DB) (h : runLoad tz (authors_by_name A) db0 mods = .ok db1) :
    ∃ db2, runLoad tz (authors_by_name A) db1 mods = .ok db2 ∧
      db2.authors = db1.authors ∧ db2.mods = db1.mods ∧
      db2.tags = db1.tags ∧ db2.modidStrs = db1.modidStrs := by
  obtain ⟨db2, hrun, qa, qm, qs, qt, _, _⟩ :=
    runLoad_skip tz (authors_by_name A) db1 mods
      (runLoad_saturates tz (authors_by_name A) db0 mods db1 h)
  exact ⟨db2, hrun, qa, qm, qt, qs⟩

/-- Witness for C3 at the concrete sample input (one author, one mod):
rerunning the load over the store the first run produced changes none of
the four entity tables. -/
theorem claim_C3_witness :
    ∃ db2, runLoad 0 (authors_by_name [author0]) dbOnce [mod0] = .ok db2 ∧
      db2.authors = dbOnce.authors ∧ db2.mods = dbOnce.mods ∧
      db2.tags = dbOnce.tags ∧ db2.modidStrs = dbOnce.modidStrs :=
  claim_C3 0 [author0] emptyDB [mod0] dbOnce (by decide)

/-- Claim C10 (implicit): the join table has a surrogate primary key and no
uniqueness constraint on the pair, so attaching a tag always appends one
more join row, silently, even when the same pair is already present; and a
rerun of the load over the same input appends one more join row for every
mod record and tag occurrence of the input. -/
theorem claim_C10 :
    (∀ (db : DB) (modId : Nat) (t : String),
      (upsertTagAttach db modId t).modTags = db.modTags ++
        [{ id := db.nextModTagId, mod_id := modId, tag_id := tagIdFor db t }]) ∧
    (∀ (tz : Int) (A : List RawAuthor) (db0 : DB) (mods : List RawMod) (db1 : DB),
      runLoad tz (authors_by_name A) db0 mods = .ok db1 →
      ∃ db2, runLoad tz (authors_by_name A) db1 mods = .ok db2 ∧
        db2.modTags.map modTagPair = db1.modTags.map modTagPair ++
          mods.flatMap (fun m => m.tags.map (fun t => (m.modid, tagIdFor db1 t)))) := by
  constructor
  · exact upsertTagAttach_modTags
  · intro tz A db0 mods db1 h
    obtain ⟨db2, hrun, _, _, _, _, _, qmt⟩ :=
      runLoad_skip tz (authors_by_name A) db1 mods
        (runLoad_saturates tz (authors_by_name A) db0 mods db1 h)
    exact ⟨db2, hrun, qmt⟩

/-- Witness for C10 at the concrete sample input: the rerun appends exactly
one more join row for the single (mod, tag) pair of the input. -/
theorem claim_C10_witness :
    ∃ db2, runLoad 0 (authors_by_name [author0]) dbOnce [mod0] = .ok db2 ∧
      db2.modTags.map modTagPair = dbOnce.modTags.map modTagPair ++
        [mod0].flatMap (fun m => m.tags.map (fun t => (m.modid, tagIdFor dbOnce t))) :=
  claim_C10.2 0 [author0] emptyDB [mod0] dbOnce (by decide)

lemma tagIdFor_not_has (db : DB) (t : String) (h : hasTag db t = false) :
    tagIdFor db t = db.nextTagId := by
  unfold tagIdFor
  cases hf : db.tags.find? (fun r => r.tag == t) with
  | none => rfl
  | some tg =>
    exfalso
    have hp := List.find?_some hf
    have hmem := List.mem_of_find?_eq_some hf
    unfold hasTag at h
    rw [List.any_eq_false] at h
    exact (h tg hmem) hp

/-- Cache file content of the mods collection for the C1 counterexample:
one complete raw mod record. -/
def modsJsonStr : String :=
  "[\x7b\"modid\": 1, \"author\": \"al\", \"assetid\": 10, \"name\": \"m\", \"summary\": null, \"urlalias\": null, \"downloads\": 5, \"follows\": 2, \"trendingpoints\": 3, \"comments\": 4, \"logo\": null, \"side\": \"both\", \"type\": \"mod\", \"lastreleased\": \"2023-05-01 12:00:00\", \"modidstrs\": [\"mm\"], \"tags\": [\"t\"]\x7d]"

/-- Cache file content of the authors collection for the C1 counterexample. -/
def authorsJsonStr : String :=
  "[\x7b\"userid\": 7, \"name\": \"al\"\x7d]"

/-- A filesystem with both cache files present. -/
def fsC1 : FS := [(mods_file, modsJsonStr), (authors_file, authorsJsonStr)]

/-- A store already holding the author named theysa, so that `main` reaches
the `exit()` call rather than the attribute error. -/
def dbT : DB := { emptyDB with authors := [{ id := 3, name := some ("theysa") }] }

set_option maxRecDepth 40000 in
/-- Counterexample to C1: a concrete run in which both fetches return a
nonempty mods array (it decodes to the one sample record), yet `main`
terminates at the `exit()` with the store byte-for-byte unchanged — while
actually running the load loop on that same fetched record would have
changed the mod table. The mapping-and-load loop is therefore not reached,
let alone run to completion. -/
theorem claim_C1_counterexample :
    VSM.main net0 fsC1 dbT = .exited fsC1 dbT ∧
    (json_loads modsJsonStr).toOption.bind decodeMods = some [mod0] ∧
    (json_loads authorsJsonStr).toOption.bind decodeAuthors = some [author0] ∧
    (runLoad 0 (authors_by_name [author0]) dbT [mod0]).db.mods ≠ dbT.mods ∧
    (VSM.main net0 fsC1 dbT).db = dbT := by
  decide

/-- Claim C1 as amended: every run of `main` performs the two fetch calls,
builds the author index, queries the store for the author named theysa and
terminates — at the unconditional `exit()` when the author is found, or
with the attribute error of `author.mods` on `None` when it is absent —
before the mapping-and-load loop, which sits after the `exit()` and never
runs: the store always comes back exactly as it was. -/
theorem claim_C1_amended (net : Network) (fs : FS) (db : DB) :
    (VSM.main net fs db).db = db := by
  simp only [VSM.main]
  repeat' split
  all_goals rfl

/-- Witness for C5 at offset zero (UTC): the string binds to epoch second
1682942400 and reads back as the same calendar timestamp. -/
theorem claim_C5_witness :
    ∃ e : Int,
      process_bind_param 0 (some (.str ("2023-05-01 12:00:00"))) = .ok (some e) ∧
      e = timestamp 0 { year := 2023, month := 5, day := 1,
                        hour := 12, minute := 0, second := 0 } ∧
      process_result_value 0 (some e) = some (fromtimestamp 0 e) ∧
      fromtimestamp 0 e = { year := 2023, month := 5, day := 1,
                            hour := 12, minute := 0, second := 0 } :=
  claim_C5 0

/-- Witness for the amended C1 at a concrete failing network, empty
filesystem and empty store: the store comes back unchanged. -/
theorem claim_C1_amended_witness :
    (VSM.main net0 [] emptyDB).db = emptyDB :=
  claim_C1_amended net0 [] emptyDB
